import Mathlib

/-!
Verification of the `htmlwriter` HTML writer (a docutils writer component,
`src/htmlwriter/__init__.py`).  The Python source is shallowly embedded:
pure helpers become Lean functions, the stateful `HTMLTranslator` visitor
becomes explicit state passing over a `S` record, and the docutils
`walkabout` depth-first traversal becomes a structural recursion over a
document-tree type.  Machine text is `String`/`List Char`, counters are
`Nat`.
-/

namespace HtmlWriter

/-! ## Markup emitter: `HTMLTranslator.encode` (lines 347-359) -/

/-- Per-character translation table of `HTMLTranslator.encode`:
`&` `<` `"` `>` `@` and U+00A0 map to character references, every other
character passes through (`str.translate` semantics). -/
def encodeChar (c : Char) : List Char :=
  if c = '&' then ['&', 'a', 'm', 'p', ';']
  else if c = '<' then ['&', 'l', 't', ';']
  else if c = '"' then ['&', 'q', 'u', 'o', 't', ';']
  else if c = '>' then ['&', 'g', 't', ';']
  else if c = '@' then ['&', '#', '6', '4', ';']
  else if c = Char.ofNat 0xa0 then ['&', 'n', 'b', 's', 'p', ';']
  else [c]

/-- Source `HTMLTranslator.encode` on the underlying character list. -/
def encodeData (l : List Char) : List Char := (l.map encodeChar).flatten

/-- Source `HTMLTranslator.encode`: encode special characters in text and return. -/
def encode (t : String) : String := String.mk (encodeData t.data)

/-- Modelled from the spec: the inverse entity decoder ("un-escaping") used
by the round-trip property; it is not part of the source.  It replaces each
named/numeric character reference produced by `encode` with the character it
stands for and leaves everything else unchanged. -/
def unescapeData : List Char → List Char
  | '&' :: 'a' :: 'm' :: 'p' :: ';' :: rest => '&' :: unescapeData rest
  | '&' :: 'l' :: 't' :: ';' :: rest => '<' :: unescapeData rest
  | '&' :: 'q' :: 'u' :: 'o' :: 't' :: ';' :: rest => '"' :: unescapeData rest
  | '&' :: 'g' :: 't' :: ';' :: rest => '>' :: unescapeData rest
  | '&' :: '#' :: '6' :: '4' :: ';' :: rest => '@' :: unescapeData rest
  | '&' :: 'n' :: 'b' :: 's' :: 'p' :: ';' :: rest => Char.ofNat 0xa0 :: unescapeData rest
  | c :: rest => c :: unescapeData rest
  | [] => []

/-- Modelled from the spec: string-level un-escaping. -/
def unescape (t : String) : String := String.mk (unescapeData t.data)

/-- The characters `encode` translates. -/
def encodeSpecials : List Char := ['&', '<', '"', '>', '@', Char.ofNat 0xa0]

/-! ## Table column widths: `HTMLTranslator.write_colspecs` (lines 685-693)

The source computes, per colspec node, the Python expression
`int(node['colwidth'] * 100.0 / width + 0.5)` where `width` is the
accumulated total of all colwidths.  Float arithmetic is modelled exactly
over the rationals; `int` truncation of the (nonnegative) value is the
floor. -/

/-- One emitted column percentage of `write_colspecs`. -/
def colPercent (colwidth width : ℕ) : ℤ :=
  ⌊(colwidth * 100 : ℚ) / width + 1 / 2⌋

/-- The list of percentages emitted by `write_colspecs` for the pending
colspec list (the source first sums all colwidths into `width`, then maps
each colspec to its percentage). -/
def write_colspecs (colspecs : List ℕ) : List ℤ :=
  colspecs.map (fun cw => colPercent cw colspecs.sum)

/-- Sum of the exact (un-rounded) column ratios plus the half-up bias. -/
def qsum (W : ℕ) (l : List ℕ) : ℚ :=
  (l.map (fun cw : ℕ => ((cw : ℚ) * 100) / W + 1 / 2)).sum

/-! ## Data model: document-tree nodes

The docutils node-kind vocabulary restricted to the kinds handled by this
writer that the claims exercise.  `Attrs` carries the node attributes the
embedded handlers read. -/

inductive Kind where
  | document | section | title | paragraph | text
  | bulletList | enumeratedList | listItem
  | definitionList | definitionListItem | term | classifier | definition
  | fieldList | field | fieldName | fieldBody
  | comment | target | math
  | table | tgroup | colspec | thead | tbody | row | entry
  | reference | image | figure | topic | attribution | footer | header
deriving DecidableEq, Repr

structure Attrs where
  classes : List String := []
  ids : List String := []
  refuri : Option String := none
  refid : Option String := none
  refname : Option String := none
  colwidth : ℕ := 0
  stub : Option Bool := none
  morerows : Option ℕ := none
  morecols : Option ℕ := none
  align : Option String := none
  startAttr : Option ℕ := none
  enumtype : Option String := none
  backrefs : List String := []
deriving DecidableEq, Repr

inductive Node where
  | node (kind : Kind) (attrs : Attrs) (children : List Node)
deriving Repr

def Node.kind : Node → Kind
  | .node k _ _ => k

def Node.attrs : Node → Attrs
  | .node _ a _ => a

def Node.children : Node → List Node
  | .node _ _ cs => cs

/-- The recognized writer settings (defaults as in `settings_spec`). -/
structure Settings where
  compactLists : Bool := true
  compactFieldLists : Bool := true
  cloakEmailAddresses : Bool := false
  footnoteBacklinks : Bool := true
  footnoteReferences : String := "brackets"
  attribution : String := "dash"
  tableStyle : String := ""
  mathOutputSetting : String := "HTML math.css"
  initialHeaderLevel : ℕ := 1
deriving Repr

/-- docutils `nodes.Invisible` members among the embedded kinds
(`comment`, `target`; `substitution_definition` and `pending` are not
modelled). -/
def isInvisible : Kind → Bool
  | .comment | .target => true
  | _ => false

/-- docutils `nodes.TextElement` subclasses among the embedded kinds. -/
def isTextElement : Kind → Bool
  | .paragraph | .title | .term | .classifier | .attribution
  | .comment | .math | .fieldName | .target | .reference => true
  | _ => false

/-! ## Simple-list classifier: `SimpleListChecker` (lines 1796-1868)

`node.walk(SimpleListChecker)` raises `NodeFound` on the first
disqualifying node (abort), `SkipNode` on "never complex" nodes (children
not visited), and otherwise descends.  The boolean result is `true` when
no `NodeFound` is raised. -/

inductive ClsAction where
  | ignore | descend | item | found

/-- Dispatch table of `SimpleListChecker`: `ignore_node`, `pass_node`,
`visit_list_item` (also `definition` and `field_body`), and the
`default_visit` fallback raising `NodeFound`. -/
def classifierAction : Kind → ClsAction
  | .text | .paragraph | .term | .fieldName | .comment | .target => .ignore
  | .bulletList | .enumeratedList | .definitionList | .definitionListItem
  | .classifier | .fieldList | .field => .descend
  | .listItem | .definition | .fieldBody => .item
  | _ => .found

/-- Last-child kinds accepted by `SimpleListChecker.visit_list_item` after
a leading paragraph. -/
def isTrailingListKind (k : Kind) : Bool :=
  k == .bulletList || k == .enumeratedList || k == .fieldList

/-- Body of `SimpleListChecker.visit_list_item` (lines 1810-1821): filter
invisible children; drop a trailing simple-list after a leading paragraph;
accept when at most one child remains. -/
def checkItem (cs : List Node) : Bool :=
  let vis := cs.filter (fun c => ! isInvisible c.kind)
  let vis2 :=
    match vis with
    | [] => []
    | c0 :: _ =>
        if c0.kind == Kind.paragraph &&
            (match vis.getLast? with
             | some cl => isTrailingListKind cl.kind
             | none => false) then
          vis.dropLast
        else vis
  vis2.length ≤ 1

mutual

/-- Source `node.walk(SimpleListChecker(...))` as a boolean: `false` iff the walk
raises `NodeFound`. -/
def simpleListCheck : Node → Bool
  | .node k _ cs =>
      match classifierAction k with
      | .ignore => true
      | .descend => simpleListCheckChildren cs
      | .item => checkItem cs && simpleListCheckChildren cs
      | .found => false

def simpleListCheckChildren : List Node → Bool
  | [] => true
  | c :: cs => simpleListCheck c && simpleListCheckChildren cs

end

/-- Source `HTMLTranslator.is_compactable` (lines 589-614).  `topicClasses` is
the translator's `self.topic_classes` state. -/
def is_compactable (st : Settings) (topicClasses : List String) (n : Node) : Bool :=
  if "compact" ∈ n.attrs.classes then true
  else if "open" ∈ n.attrs.classes then false
  else if (n.kind == .fieldList || n.kind == .definitionList) && ! st.compactFieldLists then
    false
  else if (n.kind == .enumeratedList || n.kind == .bulletList) && ! st.compactLists then
    false
  else if topicClasses == ["contents"] then true
  else simpleListCheck n

/-! ## Table cells: `HTMLTranslator.visit_entry` (lines 841-864) -/

structure EntryResult where
  tagname : String
  classes : List String
  rowspan : Option ℕ
  colspan : Option ℕ
  column : ℕ
deriving DecidableEq, Repr

/-- The attribute/cursor computation of `visit_entry`: `inThead` is the
`isinstance(node.parent.parent, nodes.thead)` test, `stubs` the enclosing
tgroup's stub list, `column` the row's current column cursor
(`node.parent.column`); returns the chosen tag name, the class list, the
emitted rowspan/colspan values and the updated column cursor. -/
def visit_entry_core (inThead : Bool) (stubs : List (Option Bool)) (column : ℕ)
    (a : Attrs) : EntryResult :=
  let headCls : List String := if inThead then ["head"] else []
  let stubFlag : Bool :=
    match stubs.getD column none with
    | some b => b
    | none => false
  let cls := headCls ++ (if stubFlag then ["stub"] else [])
  let tagname := if cls ≠ [] then "th" else "td"
  let column1 := column + 1
  let rowspan := a.morerows.map (· + 1)
  let colspan := a.morecols.map (· + 1)
  let column2 := column1 + a.morecols.getD 0
  { tagname := tagname, classes := cls, rowspan := rowspan,
    colspan := colspan, column := column2 }

/-! ## Math dispatcher (lines 311-313 and 1249-1329) -/

/-- ASCII lowercasing of one character (Python `str.lower()`; the source
lowercases only tag names, attribute names and the math-output mode word,
which are ASCII). -/
def lowerChar (c : Char) : Char :=
  if 'A' ≤ c ∧ c ≤ 'Z' then Char.ofNat (c.toNat + 32) else c

/-- ASCII `str.lower()` on a string. -/
def lowerStr (s : String) : String := String.mk (s.data.map lowerChar)

/-- The whitespace characters of Python `str.split()`/`str.strip()`
(ASCII subset; the modelled strings are ASCII). -/
def isPyWs (c : Char) : Bool :=
  c = ' ' || c = '\t' || c = '\n' || c = '\r' ||
    c = Char.ofNat 0xb || c = Char.ofNat 0xc

def splitWsData : List Char → List Char → List String
  | [], acc => if acc.isEmpty then [] else [String.mk acc.reverse]
  | c :: rest, acc =>
      if isPyWs c then
        if acc.isEmpty then splitWsData rest []
        else String.mk acc.reverse :: splitWsData rest []
      else splitWsData rest (c :: acc)

/-- Python `str.split()` (split on whitespace runs, drop empties). -/
def splitWs (s : String) : List String := splitWsData s.data []

def splitCommaData : List Char → List Char → List String
  | [], acc => [String.mk acc.reverse]
  | c :: rest, acc =>
      if c = ',' then String.mk acc.reverse :: splitCommaData rest []
      else splitCommaData rest (c :: acc)

/-- Python `str.split(',')` (keeps empty fields). -/
def splitComma (s : String) : List String := splitCommaData s.data []

/-- Python `str.strip()` (ASCII whitespace). -/
def strTrim (s : String) : String :=
  String.mk (((s.data.dropWhile isPyWs).reverse.dropWhile isPyWs).reverse)

/-- Python `str.startswith(p)`. -/
def strStartsWith (s p : String) : Bool := p.data.isPrefixOf s.data

/-- Python `s[n:]` (drop the first n characters). -/
def strDrop (s : String) (n : ℕ) : String := String.mk (s.data.drop n)

/-- Source `__init__` lines 311-313: the first word of the `math_output` setting,
lowercased, plus the remaining words as options. -/
def mathOutputInit (setting : String) : String × List String :=
  let parts := splitWs setting
  (lowerStr (parts.headD ""), parts.tail)

def recognizedMathOutputs : List String := ["mathml", "html", "mathjax", "latex"]

/-- Source `visit_math` lines 1255-1259: an unrecognized mode reports an error
message and falls back to `latex`; returns the effective mode and whether
a report was emitted. -/
def mathOutputFallback (mo : String) : String × Bool :=
  if mo ∉ recognizedMathOutputs then ("latex", true) else (mo, false)

/-! ## Markup emitter: `HTMLTranslator.attval` and `HTMLTranslator.starttag`
(lines 376-384 and 405-458)

Python keyword attributes form a dict keyed by lowercased names; the dict
is modelled as a unique-key association list with insert-or-overwrite, and
its `sorted(atts.items())` iteration as an insertion sort on the key. -/

/-- An attribute value: a string, an integer, a list of strings, or the
Python `None` (emitted as a bare boolean attribute). -/
inductive AttVal where
  | str (s : String)
  | num (n : ℕ)
  | strs (l : List String)
  | bare
deriving DecidableEq, Repr

/-- The whitespace collapsed by the cleansing regex in `attval`. -/
def cleanseChar (c : Char) : Char :=
  if c = '\n' || c = '\r' || c = '\t' || c = Char.ofNat 0xb || c = Char.ofNat 0xc then ' '
  else c

/-- Source `HTMLTranslator.attval`: cleanse, HTML encode, and (inside a cloaked
mailto) further hide `%40` and `.`. -/
def attval (cloak inMailto : Bool) (text : String) : String :=
  let encoded := encode (String.mk (text.data.map cleanseChar))
  if inMailto && cloak then
    (encoded.replace "%40" "&#37;&#52;&#48;").replace "." "&#46;"
  else encoded

def dictInsert (k : String) (v : AttVal) : List (String × AttVal) → List (String × AttVal)
  | [] => [(k, v)]
  | p :: rest => if p.1 = k then (k, v) :: rest else p :: dictInsert k v rest

def dictFind (k : String) : List (String × AttVal) → Option AttVal
  | [] => none
  | p :: rest => if p.1 = k then some p.2 else dictFind k rest

def dictErase (k : String) : List (String × AttVal) → List (String × AttVal)
  | [] => []
  | p :: rest => if p.1 = k then dictErase k rest else p :: dictErase k rest

def insertSorted (p : String × AttVal) : List (String × AttVal) → List (String × AttVal)
  | [] => [p]
  | q :: rest => if p.1 ≤ q.1 then p :: q :: rest else q :: insertSorted p rest

/-- Source `sorted(atts.items())` (keys are unique, so only key order matters). -/
def sortAtts : List (String × AttVal) → List (String × AttVal)
  | [] => []
  | p :: rest => insertSorted p (sortAtts rest)

/-- The class/language separation loop of `starttag` (lines 419-425):
classes beginning with `language-` are collected as languages, other
non-blank classes are deduplicated in order. -/
def classLangSplit (cls : List String) : List String × List String :=
  cls.foldl
    (fun acc c =>
      if strStartsWith c "language-" then (acc.1, acc.2 ++ [strDrop c 9])
      else if strTrim c ≠ "" && c ∉ acc.1 then (acc.1 ++ [c], acc.2)
      else acc)
    ([], [])

/-- Rendering of one attribute in the tag (lines 449-457): `None` values
become bare lowercased names, list values are joined and cleansed via
`attval`, other values are interpolated as-is. -/
def renderAtt (cloak inMailto : Bool) (p : String × AttVal) : String :=
  match p.2 with
  | .bare => lowerStr p.1
  | .strs l => lowerStr p.1 ++ "=\"" ++ attval cloak inMailto (" ".intercalate l) ++ "\""
  | .str s => lowerStr p.1 ++ "=\"" ++ s ++ "\""
  | .num n => lowerStr p.1 ++ "=\"" ++ toString n ++ "\""

/-- Zero-width anchor for an additional identifier (lines 443 and 447). -/
def anchorSpan (i : String) : String := "<span id=\"" ++ i ++ "\"></span>"

/-- The attribute-dict normalization of `starttag` (lines 410-427):
lowercase the supplied keyword names, merge the node's classes with the
`class` attribute, and redirect `language-` classes to the `lang`
attribute. -/
def starttagAtts (node : Attrs) (attributes : List (String × AttVal)) :
    List (String × AttVal) :=
  let atts0 := attributes.foldl (fun d p => dictInsert (lowerStr p.1) p.2 d) []
  let classAtt : List String :=
    match dictFind "class" atts0 with
    | some (.str s) => splitWs s
    | _ => []
  let atts1 := dictErase "class" atts0
  let cl := classLangSplit (node.classes ++ classAtt)
  let atts2 :=
    match cl.2 with
    | [] => atts1
    | l0 :: _ => dictInsert "lang" (.str l0) atts1
  if cl.1 ≠ [] then dictInsert "class" (.str (" ".intercalate cl.1)) atts2 else atts2

/-- The identifier list of `starttag` (lines 429-432): the node's ids,
extended by an `ids` attribute (which is then deleted). -/
def starttagIds (node : Attrs) (atts3 : List (String × AttVal)) : List String :=
  node.ids ++
    (match dictFind "ids" atts3 with
     | some (.strs l) => l
     | _ => [])

/-- Source `HTMLTranslator.starttag` (lines 405-458).  The Python `assert 'id'
not in atts` becomes the `Except.error` branch. -/
def starttag (cloak inMailto : Bool) (node : Attrs) (tagname : String)
    (sfx : String) (empty : Bool) (attributes : List (String × AttVal)) :
    Except String String :=
  let tag := lowerStr tagname
  let atts3 := starttagAtts node attributes
  if (dictFind "id" atts3).isSome then
    .error "duplicate id attribute"
  else
    let ids := starttagIds node atts3
    let atts4 := dictErase "ids" atts3
    let spans := (ids.drop 1).map anchorSpan
    let pfx : List String := if empty then spans else []
    let sfx2 := if empty then sfx else sfx ++ String.join spans
    let atts5 :=
      match ids with
      | [] => atts4
      | i0 :: _ => dictInsert "id" (.str i0) atts4
    let parts := tag :: (sortAtts atts5).map (renderAtt cloak inMailto)
    .ok (String.join pfx ++ "<" ++ " ".intercalate parts ++ ">" ++ sfx2)

/-- Source `HTMLTranslator.emptytag` (lines 460-462). -/
def emptytag (cloak inMailto : Bool) (node : Attrs) (tagname : String)
    (sfx : String) (attributes : List (String × AttVal)) : Except String String :=
  starttag cloak inMailto node tagname sfx true attributes

/-! ## Footnote/citation labels: `visit_label` / `depart_label`
(lines 1175-1202) -/

/-- Source `HTMLTranslator.visit_label`: the `dt`/`span` start tags, plus - with
footnote backlinks enabled and exactly one back-reference - the inline
back-link anchor.  `parentIsFootnote` is the
`isinstance(node.parent, nodes.footnote)` test; `parentAttrs` is the label
node's parent (footnote/citation) whose ids go into the `dt` tag and whose
`backrefs` attribute drives the back-link markup. -/
def visit_label (st : Settings) (cloak inMailto : Bool) (parentIsFootnote : Bool)
    (parentAttrs labelAttrs : Attrs) : Except String (List String) := do
  let classes := if parentIsFootnote then st.footnoteReferences else "brackets"
  let t1 ← starttag cloak inMailto parentAttrs "dt" "" false [("CLASS", .str "label")]
  let t2 ← starttag cloak inMailto labelAttrs "span" "" false [("CLASS", .str classes)]
  let backrefs := parentAttrs.backrefs
  if st.footnoteBacklinks && backrefs.length == 1 then
    pure [t1, t2, "<a class=\"fn-backref\" href=\"#" ++ backrefs.headD "" ++ "\">"]
  else
    pure [t1, t2]

/-- The numbered back-link list of `depart_label` (lines 1197-1199):
`enumerate(backrefs)` rendered as anchors labelled from 1. -/
def backlinkAnchors (backrefs : List String) : List String :=
  backrefs.enum.map
    (fun p => "<a href=\"#" ++ p.2 ++ "\">" ++ toString (p.1 + 1) ++ "</a>")

/-- Source `HTMLTranslator.depart_label`: close the span; with backlinks enabled
append either the closing inline anchor (one backref) or the parenthesized
numbered back-link list (more than one); then close the `dt` and open the
`dd`. -/
def depart_label (st : Settings) (backrefs : List String) : List String :=
  ["</span>"] ++
    (if st.footnoteBacklinks then
      if backrefs.length == 1 then ["</a>"]
      else if backrefs.length > 1 then
        ["<span class=\"fn-backref\">(" ++ ",".intercalate (backlinkAnchors backrefs) ++
          ")</span>"]
      else []
    else []) ++
    ["</dt>\n<dd>"]

/-! ## The traversal engine

docutils `Node.walkabout` drives `dispatch_visit` (enter), the children,
and `dispatch_departure` (exit); a handler raising `SkipNode` suppresses
both the descent and the departure (`visit_comment` line 700, `visit_math`
lines 1315/1329; `depart_math` line 1332 is marked "never reached").

The translator state `S` carries every piece of `HTMLTranslator` state the
embedded handlers read or write.  The body buffer is projected to its
length (`bodyLen`): no handler's control flow, no context-stack operation
and no other state update depends on the text of the accumulated
fragments, only `len(self.body)` is ever read (header/footer/title
slicing).  Per-node mutable attributes of the Python tree (`tgroup.stubs`,
`row.column`) become stacks pushed on enter and popped on exit of their
owning node, which is observationally equivalent because the source never
reads them after the owner's exit. -/

/-- One frame of the heterogeneous `self.context` stack: a closing-tag
string, the saved `(compact_simple, compact_p)` pair of a bullet list, or
a saved `len(self.body)` offset of a header/footer. -/
inductive Frame where
  | str (s : String)
  | flags (cs : Bool) (cp : Option Bool)
  | ofs (n : ℕ)
deriving DecidableEq, Repr

/-- Source `self.context.pop()`.  Popping an empty stack raises `IndexError` in
Python; the default frame is never produced in a well-formed traversal. -/
def popFrame : List Frame → Frame × List Frame
  | [] => (.str "", [])
  | f :: rest => (f, rest)

/-- Translator state (`HTMLTranslator.__init__`, lines 288-339, restricted
to what the embedded handlers touch). -/
structure S where
  context : List Frame := []
  bodyLen : ℕ := 0
  compactSimple : Bool := false
  compactP : Option Bool := some true
  topicClasses : List String := []
  colspecs : List ℕ := []
  stubsStack : List (List (Option Bool)) := []
  rowColumns : List ℕ := []
  inMailto : Bool := false
  sectionLevel : ℕ := 0
  inDocumentTitle : ℕ := 0
  mathOutput : String := ""
  mathOutputOptions : List String := []
  mathHeader : Bool := false
  reports : ℕ := 0
deriving DecidableEq, Repr

/-- Initial translator state for a settings record (`__init__`). -/
def initS (st : Settings) : S :=
  { mathOutput := (mathOutputInit st.mathOutputSetting).1,
    mathOutputOptions := (mathOutputInit st.mathOutputSetting).2 }

/-- Structural context handed to a handler: the parent's kind, the
parent's child count (`len(node.parent)`), and the grandparent's kind,
standing for the `node.parent` / `node.parent.parent` isinstance tests. -/
structure Ctx where
  parent : Option Kind := none
  parentLen : ℕ := 0
  grandparent : Option Kind := none
deriving DecidableEq, Repr

/-- Node kinds whose visit handler raises `nodes.SkipNode`
(`visit_comment`, `visit_math`). -/
def skipsNode : Kind → Bool
  | .comment | .math => true
  | _ => false

/-- The halign extraction loop over an `align` attribute (last
left/right/center entry wins), as in `visit_image`/`visit_figure`/
`visit_reference`. -/
def parseHalign (al : Option String) : String :=
  match al with
  | none => ""
  | some s =>
      (splitComma s).foldl
        (fun h x =>
          let v := strTrim x
          if v = "left" || v = "right" || v = "center" then v else h)
        ""

/-- Source `HTMLTranslator.attribution_formats` (lines 529-532); the settings
validator restricts the key to the four entries, the fallback is the
Python `KeyError` case. -/
def attributionFormats (s : String) : String × String :=
  if s = "dash" then ("—", "")
  else if s = "parentheses" then ("(", ")")
  else if s = "parens" then ("(", ")")
  else ("", "")

/-- The inline (non-block) math container tag per effective output mode
(`tags` dict in `visit_math`, indexed by an empty `math_env`). -/
def inlineMathTag (mo : String) : String :=
  if mo = "mathml" then ""
  else if mo = "html" then "span"
  else if mo = "mathjax" then "span"
  else "tt"

/-- Enter handlers (`visit_*`).  Buffer appends other than to `self.body`
are untracked; `self.body` appends count into `bodyLen`. -/
def dispatch_visit (st : Settings) (c : Ctx) (n : Node) (s : S) : S :=
  match n with
  | .node k a cs =>
    match k with
    | .document => s
    | .section =>
        { s with sectionLevel := s.sectionLevel + 1, bodyLen := s.bodyLen + 1 }
    | .title =>
        match c.parent with
        | some .topic =>
            { s with bodyLen := s.bodyLen + 1, context := .str "</p>\n" :: s.context }
        | some .table =>
            { s with bodyLen := s.bodyLen + 1, context := .str "</caption>\n" :: s.context }
        | some .document =>
            { s with bodyLen := s.bodyLen + 1, inDocumentTitle := s.bodyLen + 1,
                     context := .str "</h1>\n" :: s.context }
        | _ =>
            let hLevel := s.sectionLevel + st.initialHeaderLevel - 1
            if a.refid.isSome then
              { s with bodyLen := s.bodyLen + 2,
                       context := .str ("</a></h" ++ toString hLevel ++ ">\n") :: s.context }
            else
              { s with bodyLen := s.bodyLen + 1,
                       context := .str ("</h" ++ toString hLevel ++ ">\n") :: s.context }
    | .paragraph => { s with bodyLen := s.bodyLen + 1 }
    | .text => { s with bodyLen := s.bodyLen + 1 }
    | .bulletList =>
        { s with context := .flags s.compactSimple s.compactP :: s.context,
                 compactP := none,
                 compactSimple := is_compactable st s.topicClasses n,
                 bodyLen := s.bodyLen + 1 }
    | .enumeratedList => { s with bodyLen := s.bodyLen + 1 }
    | .listItem => { s with bodyLen := s.bodyLen + 1 }
    | .definitionList => { s with bodyLen := s.bodyLen + 1 }
    | .definitionListItem => s
    | .term => { s with bodyLen := s.bodyLen + 1 }
    | .classifier => { s with bodyLen := s.bodyLen + 1 }
    | .definition => { s with bodyLen := s.bodyLen + 2 }
    | .fieldList => { s with bodyLen := s.bodyLen + 1 }
    | .field => s
    | .fieldName => { s with bodyLen := s.bodyLen + 1 }
    | .fieldBody => { s with bodyLen := s.bodyLen + 1 }
    | .comment => { s with bodyLen := s.bodyLen + 1 }
    | .target =>
        if a.refuri.isNone && a.refid.isNone && a.refname.isNone then
          { s with bodyLen := s.bodyLen + 1, context := .str "</span>" :: s.context }
        else
          { s with context := .str "" :: s.context }
    | .math =>
        let fb := mathOutputFallback s.mathOutput
        let s1 := { s with mathOutput := fb.1,
                           reports := s.reports + (if fb.2 then 1 else 0) }
        let s2 :=
          if fb.1 = "mathjax" && ! s1.mathHeader then { s1 with mathHeader := true }
          else if fb.1 = "html" && s1.mathOutputOptions ≠ [] && ! s1.mathHeader then
            { s1 with mathHeader := true }
          else s1
        if inlineMathTag fb.1 ≠ "" then { s2 with bodyLen := s2.bodyLen + 3 }
        else { s2 with bodyLen := s2.bodyLen + 1 }
    | .table => { s with bodyLen := s.bodyLen + 1 }
    | .tgroup =>
        { s with bodyLen := s.bodyLen + 1,
                 context := .str "</colgroup>\n" :: s.context,
                 stubsStack := [] :: s.stubsStack }
    | .colspec =>
        { s with colspecs := s.colspecs ++ [a.colwidth],
                 stubsStack :=
                   match s.stubsStack with
                   | [] => []
                   | h :: t => (h ++ [a.stub]) :: t }
    | .thead =>
        let s1 := { s with bodyLen := s.bodyLen + s.colspecs.length, colspecs := [] }
        let pr := popFrame s1.context
        { s1 with bodyLen := s1.bodyLen + 2, context := .str "" :: pr.2 }
    | .tbody =>
        let s1 := { s with bodyLen := s.bodyLen + s.colspecs.length, colspecs := [] }
        let pr := popFrame s1.context
        { s1 with bodyLen := s1.bodyLen + 2, context := pr.2 }
    | .row => { s with bodyLen := s.bodyLen + 1, rowColumns := 0 :: s.rowColumns }
    | .entry =>
        let inThead := c.grandparent = some Kind.thead
        let r := visit_entry_core inThead (s.stubsStack.headD []) (s.rowColumns.headD 0) a
        { s with bodyLen := s.bodyLen + 1,
                 context := .str ("</" ++ r.tagname ++ ">\n") :: s.context,
                 rowColumns := r.column :: s.rowColumns.tail }
    | .reference =>
        let mailtoCond := st.cloakEmailAddresses &&
          (match a.refuri with
           | some u => strStartsWith u "mailto:"
           | none => false)
        let s0 := if mailtoCond then { s with inMailto := true } else s
        let s1 :=
          match cs with
          | [Node.node Kind.image a0 _] =>
              if c.parent = some Kind.figure then
                { s0 with context := .str "</a>" :: s0.context }
              else
                let halign := parseHalign a0.align
                if halign = "center" || halign = "left" || halign = "right" then
                  { s0 with bodyLen := s0.bodyLen + 1,
                            context := .str "</a></div>" :: s0.context }
                else if !(match c.parent with
                          | some pk => isTextElement pk
                          | none => false) then
                  { s0 with bodyLen := s0.bodyLen + 1,
                            context := .str "</a></div>" :: s0.context }
                else
                  { s0 with context := .str "</a>" :: s0.context }
          | _ => { s0 with context := .str "</a>" :: s0.context }
        { s1 with bodyLen := s1.bodyLen + 1 }
    | .image =>
        if c.parent = some Kind.reference || c.parent = some Kind.figure then
          { s with context := .str "" :: s.context, bodyLen := s.bodyLen + 1 }
        else
          { s with bodyLen := s.bodyLen + 2, context := .str "</div>\n" :: s.context }
    | .figure =>
        if c.parent = some Kind.reference then
          { s with context := .str "</figure>" :: s.context, bodyLen := s.bodyLen + 1 }
        else
          { s with bodyLen := s.bodyLen + 2,
                   context := .str "</figure></div>\n" :: s.context }
    | .topic => { s with bodyLen := s.bodyLen + 1, topicClasses := a.classes }
    | .attribution =>
        { s with context := .str (attributionFormats st.attribution).2 :: s.context,
                 bodyLen := s.bodyLen + 2 }
    | .footer => { s with context := .ofs s.bodyLen :: s.context }
    | .header => { s with context := .ofs s.bodyLen :: s.context }

/-- Exit handlers (`depart_*`).  The handlers of skip kinds
(`depart_comment` does not exist, `depart_math` is never reached) are
identities here and are never invoked by `walkabout`. -/
def dispatch_departure (_st : Settings) (c : Ctx) (n : Node) (s : S) : S :=
  match n with
  | .node k _ _ =>
    match k with
    | .document => s
    | .section =>
        { s with sectionLevel := s.sectionLevel - 1, bodyLen := s.bodyLen + 1 }
    | .title =>
        let pr := popFrame s.context
        let s1 := { s with context := pr.2, bodyLen := s.bodyLen + 1 }
        if s1.inDocumentTitle ≠ 0 then
          { s1 with inDocumentTitle := 0, bodyLen := 0 }
        else s1
    | .paragraph =>
        if (c.parent = some Kind.listItem || c.parent = some Kind.entry) &&
            c.parentLen = 1 then
          { s with bodyLen := s.bodyLen + 1 }
        else
          { s with bodyLen := s.bodyLen + 2 }
    | .text => s
    | .bulletList =>
        let pr := popFrame s.context
        let s1 := { s with context := pr.2, bodyLen := s.bodyLen + 1 }
        match pr.1 with
        | .flags a b => { s1 with compactSimple := a, compactP := b }
        | _ => s1
    | .enumeratedList => { s with bodyLen := s.bodyLen + 1 }
    | .listItem => { s with bodyLen := s.bodyLen + 1 }
    | .definitionList => { s with bodyLen := s.bodyLen + 1 }
    | .definitionListItem => s
    | .term => s
    | .classifier => { s with bodyLen := s.bodyLen + 1 }
    | .definition => { s with bodyLen := s.bodyLen + 1 }
    | .fieldList => { s with bodyLen := s.bodyLen + 1 }
    | .field => s
    | .fieldName => { s with bodyLen := s.bodyLen + 1 }
    | .fieldBody => { s with bodyLen := s.bodyLen + 1 }
    | .comment => s
    | .target =>
        let pr := popFrame s.context
        { s with context := pr.2, bodyLen := s.bodyLen + 1 }
    | .math => s
    | .table => { s with bodyLen := s.bodyLen + 1 }
    | .tgroup => { s with stubsStack := s.stubsStack.tail }
    | .colspec => s
    | .thead => { s with bodyLen := s.bodyLen + 1 }
    | .tbody => { s with bodyLen := s.bodyLen + 1 }
    | .row => { s with bodyLen := s.bodyLen + 1, rowColumns := s.rowColumns.tail }
    | .entry =>
        let pr := popFrame s.context
        { s with context := pr.2, bodyLen := s.bodyLen + 1 }
    | .reference =>
        let pr := popFrame s.context
        let s1 := { s with context := pr.2, bodyLen := s.bodyLen + 1 }
        let s2 :=
          if !(match c.parent with
               | some pk => isTextElement pk
               | none => false) then
            { s1 with bodyLen := s1.bodyLen + 1 }
          else s1
        { s2 with inMailto := false }
    | .image =>
        let pr := popFrame s.context
        { s with context := pr.2, bodyLen := s.bodyLen + 1 }
    | .figure =>
        let pr := popFrame s.context
        { s with context := pr.2, bodyLen := s.bodyLen + 1 }
    | .topic => { s with bodyLen := s.bodyLen + 1, topicClasses := [] }
    | .attribution =>
        let pr := popFrame s.context
        { s with context := pr.2, bodyLen := s.bodyLen + 1 }
    | .footer =>
        let pr := popFrame s.context
        let start := match pr.1 with | .ofs m => m | _ => 0
        { s with context := pr.2, bodyLen := min start s.bodyLen }
    | .header =>
        let pr := popFrame s.context
        let start := match pr.1 with | .ofs m => m | _ => 0
        { s with context := pr.2, bodyLen := min start s.bodyLen }

mutual

/-- docutils `Node.walkabout`: enter, children (unless the enter raised
`SkipNode`), exit. -/
def walkabout (st : Settings) (c : Ctx) (s : S) : Node → S
  | .node k a cs =>
      let s1 := dispatch_visit st c (.node k a cs) s
      if skipsNode k then s1
      else
        let c2 : Ctx :=
          { parent := some k, parentLen := cs.length, grandparent := c.parent }
        dispatch_departure st c (.node k a cs) (walkChildren st c2 s1 cs)

def walkChildren (st : Settings) (c : Ctx) (s : S) : List Node → S
  | [] => s
  | n :: rest => walkChildren st c (walkabout st c s n) rest

end

/-- Enter/exit events of a traversal, used to state visit-count facts. -/
inductive Event where
  | enter (k : Kind)
  | leave (k : Kind)
deriving DecidableEq, Repr

mutual

/-- The event trace `walkabout` produces: one enter per dispatched visit;
children and exit only when the visit did not raise `SkipNode`. -/
def eventsOf : Node → List Event
  | .node k _ cs =>
      .enter k :: (if skipsNode k then [] else eventsOfChildren cs ++ [.leave k])

def eventsOfChildren : List Node → List Event
  | [] => []
  | c :: cs => eventsOf c ++ eventsOfChildren cs

end

def countEnter (k : Kind) (es : List Event) : ℕ :=
  (es.filter (fun e => e == Event.enter k)).length

def countLeave (k : Kind) (es : List Event) : ℕ :=
  (es.filter (fun e => e == Event.leave k)).length

mutual

/-- Number of nodes of kind `k` the traversal reaches (dispatches a visit
for): children below a skip node are never reached. -/
def reachedCount (k : Kind) : Node → ℕ
  | .node k0 _ cs =>
      (if k0 = k then 1 else 0) +
        (if skipsNode k0 then 0 else reachedCountChildren k cs)

def reachedCountChildren (k : Kind) : List Node → ℕ
  | [] => 0
  | c :: cs => reachedCount k c + reachedCountChildren k cs

end

mutual

/-- Well-formedness of a document tree for the context-stack theorem:
`thead`/`tbody` occur only inside a `tgroup` obeying the docutils content
model (their enter handlers pop the frame the tgroup's enter pushed), and
a `tgroup` holds childless colspecs, then an optional `thead`, then
exactly one `tbody`. -/
def wfNode : Node → Bool
  | .node k _ cs =>
      match k with
      | .tgroup => wfTgroup cs
      | .thead => false
      | .tbody => false
      | _ => wfChildren cs

def wfChildren : List Node → Bool
  | [] => true
  | c :: cs => wfNode c && wfChildren cs

/-- The docutils tgroup content model `colspec*, thead?, tbody`. -/
def wfTgroup : List Node → Bool
  | [] => false
  | .node k _ cs :: rest =>
      if k = .colspec then cs.isEmpty && wfTgroup rest
      else if k = .thead then wfChildren cs && wfTheadTail rest
      else if k = .tbody then rest.isEmpty && wfChildren cs
      else false

/-- After a `thead`, exactly one `tbody` must follow. -/
def wfTheadTail : List Node → Bool
  | [.node k2 _ cs2] => (k2 == Kind.tbody) && wfChildren cs2
  | _ => false

end

/-- Kinds whose enter handler pushes exactly one context frame (all other
enter handlers leave the stack alone, except `thead`/`tbody` which pop). -/
def kindPushes : Kind → Bool
  | .title | .bulletList | .target | .tgroup | .entry | .reference
  | .image | .figure | .attribution | .footer | .header => true
  | _ => false

/-- Kinds whose exit handler pops exactly one context frame.  Note
`tgroup` is absent although its enter pushes: its frame is popped by the
enter step of its `thead`/`tbody` child. -/
def kindPops : Kind → Bool
  | .title | .bulletList | .target | .entry | .reference
  | .image | .figure | .attribution | .footer | .header => true
  | _ => false

def exampleColspec1 : Node := .node .colspec { colwidth := 1 } []

def exampleColspec2 : Node := .node .colspec { colwidth := 2 } []

def exampleThead : Node :=
  .node .thead {} [.node .row {} [.node .entry {} [], .node .entry {} []]]

def exampleTbody : Node :=
  .node .tbody {}
    [.node .row {}
      [.node .entry {} [.node .paragraph {} [.node .text {} []]],
       .node .entry { morecols := some 1 } []]]

def exampleTgroup : Node :=
  .node .tgroup {} [exampleColspec1, exampleColspec2, exampleThead, exampleTbody]

def exampleTable : Node := .node .table {} [exampleTgroup]

def exampleSection : Node :=
  .node .section {} [.node .title {} [.node .text {} []]]

/-- A document with a section title and a two-column table with a header
row and a body row. -/
def exampleTableDoc : Node := .node .document {} [exampleSection, exampleTable]

def exampleCtxTgroup : Ctx :=
  { parent := some .tgroup, parentLen := 4, grandparent := some .table }

/-- The translator state of the traversal of `exampleTableDoc` at the
moment the `tbody` node's enter step is dispatched: the document, the
section subtree, the table and tgroup enters, and the colspec and thead
children have been processed, exactly as `walkabout` orders them. -/
def examplePreTbody : S :=
  let s0 := dispatch_visit {} {} exampleTableDoc (initS {})
  let cDoc : Ctx := { parent := some .document, parentLen := 2, grandparent := none }
  let s1 := walkabout {} cDoc s0 exampleSection
  let s2 := dispatch_visit {} cDoc exampleTable s1
  let cTable : Ctx :=
    { parent := some .table, parentLen := 1, grandparent := some .document }
  let s3 := dispatch_visit {} cTable exampleTgroup s2
  walkChildren {} exampleCtxTgroup s3 [exampleColspec1, exampleColspec2, exampleThead]

/-- A bullet list whose only item holds two paragraphs: the classifier
rejects it (`simpleListCheck = false`). -/
def exampleBusyList : Node :=
  .node .bulletList {}
    [.node .listItem {} [.node .paragraph {} [], .node .paragraph {} []]]

/-- A document whose math node (with a child) is followed by a paragraph:
used to exhibit the `SkipNode` behaviour of `visit_math`. -/
def exampleMathDoc : Node :=
  .node .document {}
    [.node .math {} [.node .text {} []],
     .node .paragraph {} [.node .text {} []]]

/-! ## Claim C9: escape idempotence and round-trip -/

theorem encodeChar_eq_self_of_not_special {c : Char} (h : c ∉ encodeSpecials) :
    encodeChar c = [c] := by
  simp only [encodeSpecials, List.mem_cons, List.not_mem_nil, or_false] at h
  push_neg at h
  obtain ⟨h1, h2, h3, h4, h5, h6⟩ := h
  simp [encodeChar, h1, h2, h3, h4, h5, h6]

theorem amp_mem_encodeChar_of_special {c : Char} (h : c ∈ encodeSpecials) :
    '&' ∈ encodeChar c := by
  simp only [encodeSpecials, List.mem_cons, List.not_mem_nil, or_false] at h
  rcases h with h | h | h | h | h | h <;> subst h <;> decide

theorem encodeData_eq_self {l : List Char} (h : ∀ c ∈ l, c ∉ encodeSpecials) :
    encodeData l = l := by
  induction l with
  | nil => rfl
  | cons c l ih =>
      simp only [encodeData, List.map_cons, List.flatten_cons] at *
      rw [encodeChar_eq_self_of_not_special (h c (List.mem_cons_self c l)),
          ih (fun d hd => h d (List.mem_cons_of_mem c hd))]
      rfl

theorem amp_mem_encodeData_of_special {l : List Char} {c : Char}
    (hc : c ∈ l) (hs : c ∈ encodeSpecials) : '&' ∈ encodeData l := by
  simp only [encodeData, List.mem_flatten, List.mem_map]
  exact ⟨encodeChar c, ⟨c, hc, rfl⟩, amp_mem_encodeChar_of_special hs⟩

theorem unescapeData_amp (rest : List Char) :
    unescapeData ('&' :: 'a' :: 'm' :: 'p' :: ';' :: rest) = '&' :: unescapeData rest := rfl

theorem unescapeData_lt (rest : List Char) :
    unescapeData ('&' :: 'l' :: 't' :: ';' :: rest) = '<' :: unescapeData rest := rfl

theorem unescapeData_quot (rest : List Char) :
    unescapeData ('&' :: 'q' :: 'u' :: 'o' :: 't' :: ';' :: rest) =
      '"' :: unescapeData rest := rfl

theorem unescapeData_gt (rest : List Char) :
    unescapeData ('&' :: 'g' :: 't' :: ';' :: rest) = '>' :: unescapeData rest := rfl

theorem unescapeData_at (rest : List Char) :
    unescapeData ('&' :: '#' :: '6' :: '4' :: ';' :: rest) = '@' :: unescapeData rest := rfl

theorem roundtrip_data {l : List Char}
    (h : ∀ c ∈ l, c ∈ ['&', '<', '"', '>', '@']) :
    unescapeData (encodeData l) = l := by
  induction l with
  | nil => rfl
  | cons c l ih =>
      have hc := h c (List.mem_cons_self c l)
      have hl := ih (fun d hd => h d (List.mem_cons_of_mem c hd))
      have hstep : encodeData (c :: l) = encodeChar c ++ encodeData l := by
        simp [encodeData]
      rw [hstep]
      simp only [List.mem_cons, List.not_mem_nil, or_false] at hc
      rcases hc with hc | hc | hc | hc | hc <;> subst hc
      · rw [show encodeChar '&' = ['&', 'a', 'm', 'p', ';'] from rfl]
        rw [List.cons_append, List.cons_append, List.cons_append, List.cons_append,
            List.cons_append, List.nil_append, unescapeData_amp, hl]
      · rw [show encodeChar '<' = ['&', 'l', 't', ';'] from rfl]
        rw [List.cons_append, List.cons_append, List.cons_append, List.cons_append,
            List.nil_append, unescapeData_lt, hl]
      · rw [show encodeChar '"' = ['&', 'q', 'u', 'o', 't', ';'] from rfl]
        rw [List.cons_append, List.cons_append, List.cons_append, List.cons_append,
            List.cons_append, List.cons_append, List.nil_append, unescapeData_quot, hl]
      · rw [show encodeChar '>' = ['&', 'g', 't', ';'] from rfl]
        rw [List.cons_append, List.cons_append, List.cons_append, List.cons_append,
            List.nil_append, unescapeData_gt, hl]
      · rw [show encodeChar '@' = ['&', '#', '6', '4', ';'] from rfl]
        rw [List.cons_append, List.cons_append, List.cons_append, List.cons_append,
            List.cons_append, List.nil_append, unescapeData_at, hl]

theorem mem_encodeData_ne_at_nbsp {l : List Char} {c : Char}
    (hc : c ∈ encodeData l) : c ≠ '@' ∧ c ≠ Char.ofNat 0xa0 := by
  simp only [encodeData, List.mem_flatten, List.mem_map] at hc
  obtain ⟨cs, ⟨d, _, rfl⟩, hmem⟩ := hc
  by_cases hd : d ∈ encodeSpecials
  · simp only [encodeSpecials, List.mem_cons, List.not_mem_nil, or_false] at hd
    rcases hd with hd | hd | hd | hd | hd | hd <;> subst hd <;>
      simp only [encodeChar] at hmem <;> simp at hmem <;>
      exact ⟨by rintro rfl; exact absurd hmem (by decide),
             by rintro rfl; exact absurd hmem (by decide)⟩
  · rw [encodeChar_eq_self_of_not_special hd] at hmem
    simp only [List.mem_singleton] at hmem
    subst hmem
    simp only [encodeSpecials, List.mem_cons, List.not_mem_nil, or_false] at hd
    push_neg at hd
    exact ⟨hd.2.2.2.2.1, hd.2.2.2.2.2⟩

/-- Claim C9: `encode` (the escape function) is idempotent on every
already-escaped text (an output of `encode`) that contains no raw `&`, `<`,
`>`, `"`; and un-escaping `encode x` recovers `x` whenever `x` consists only
of the five special characters ampersand, angle brackets, double quote, at-sign. -/
theorem claim_C9_escape_idempotent_roundtrip :
    (∀ y : String, (∀ c ∈ (encode y).data, c ∉ (['&', '<', '>', '"'] : List Char)) →
        encode (encode y) = encode y) ∧
    (∀ x : String, (∀ c ∈ x.data, c ∈ (['&', '<', '"', '>', '@'] : List Char)) →
        unescape (encode x) = x) := by
  constructor
  · intro y h4
    have hs : ∀ c ∈ encodeData y.data, c ∉ encodeSpecials := by
      intro c hc hspec
      simp only [encodeSpecials, List.mem_cons, List.not_mem_nil, or_false] at hspec
      have hne := mem_encodeData_ne_at_nbsp hc
      have h4c := h4 c hc
      simp only [List.mem_cons, List.not_mem_nil, or_false] at h4c
      push_neg at h4c
      rcases hspec with h | h | h | h | h | h
      · exact h4c.1 h
      · exact h4c.2.1 h
      · exact h4c.2.2.2 h
      · exact h4c.2.2.1 h
      · exact hne.1 h
      · exact hne.2 h
    show String.mk (encodeData (encodeData y.data)) = String.mk (encodeData y.data)
    rw [encodeData_eq_self hs]
  · intro x hx
    show String.mk (unescapeData (encodeData x.data)) = x
    rw [roundtrip_data hx]

theorem claim_C9_witness :
    ((∀ c ∈ (encode "a=b").data, c ∉ (['&', '<', '>', '"'] : List Char)) ∧
      encode (encode "a=b") = encode "a=b") ∧
    ((∀ c ∈ ("&@\"".data : List Char), c ∈ (['&', '<', '"', '>', '@'] : List Char)) ∧
      unescape (encode "&@\"") = "&@\"") :=
  ⟨⟨by decide, claim_C9_escape_idempotent_roundtrip.1 "a=b" (by decide)⟩,
   ⟨by decide, claim_C9_escape_idempotent_roundtrip.2 "&@\"" (by decide)⟩⟩

/-! ## Claim C4: colspec percentages -/

theorem colPercent_eq_div {colwidth width : ℕ} (hw : 0 < width) :
    colPercent colwidth width = ((200 * colwidth + width) / (2 * width) : ℕ) := by
  have hw0 : (width : ℚ) ≠ 0 := Nat.cast_ne_zero.mpr hw.ne'
  have hq : (colwidth * 100 : ℚ) / width + 1 / 2 =
      ((200 * colwidth + width : ℕ) : ℚ) / ((2 * width : ℕ) : ℚ) := by
    push_cast
    field_simp
    ring
  have hnn : (0 : ℚ) ≤ ((200 * colwidth + width : ℕ) : ℚ) / ((2 * width : ℕ) : ℚ) := by
    positivity
  rw [colPercent, hq, ← Int.natCast_floor_eq_floor hnn, Nat.floor_div_eq_div]

theorem colPercent_le (colwidth width : ℕ) :
    (colPercent colwidth width : ℚ) ≤ (colwidth * 100 : ℚ) / width + 1 / 2 :=
  Int.floor_le _

theorem lt_colPercent_add_one (colwidth width : ℕ) :
    (colwidth * 100 : ℚ) / width + 1 / 2 < (colPercent colwidth width : ℚ) + 1 :=
  Int.lt_floor_add_one _

theorem colsum_upper (W : ℕ) : ∀ l : List ℕ,
    ((l.map (fun cw => colPercent cw W)).sum : ℚ) ≤ qsum W l := by
  intro l
  induction l with
  | nil => simp [qsum]
  | cons c l ih =>
      have h1 := colPercent_le c W
      simp only [qsum, List.map_cons, List.sum_cons] at *
      rw [Int.cast_add]
      linarith

theorem colsum_lower (W : ℕ) : ∀ l : List ℕ, l ≠ [] →
    qsum W l < ((l.map (fun cw => colPercent cw W)).sum : ℚ) + l.length := by
  intro l
  induction l with
  | nil => intro h; exact absurd rfl h
  | cons c l ih =>
      intro _
      have h2 := lt_colPercent_add_one c W
      by_cases hl : l = []
      · subst hl
        simp only [qsum, List.map_cons, List.map_nil, List.sum_cons, List.sum_nil,
          List.length_cons, List.length_nil, add_zero]
        push_cast
        linarith
      · have ih2 := ih hl
        simp only [qsum, List.map_cons, List.sum_cons, List.length_cons] at *
        rw [Int.cast_add, Nat.cast_add, Nat.cast_one]
        linarith

theorem qsum_eq (W : ℕ) (hW : (W : ℚ) ≠ 0) (l : List ℕ) (hl : l.sum = W) :
    qsum W l = 100 + (l.length : ℚ) / 2 := by
  have key : ∀ m : List ℕ, qsum W m = ((m.sum : ℚ) * 100) / W + (m.length : ℚ) / 2 := by
    intro m
    induction m with
    | nil => simp [qsum]
    | cons c m ih =>
        simp only [qsum, List.map_cons, List.sum_cons, List.length_cons] at *
        rw [ih, Nat.cast_add, Nat.cast_add, Nat.cast_one]
        ring
  rw [key l, hl]
  field_simp

/-- Claim C4: for a non-empty colspec list with positive widths, each
percentage emitted by `write_colspecs` is the half-up rounding
`colPercent`, computable as `(200 * colwidth + width) / (2 * width)` in
integer arithmetic, and the emitted percentages sum to `100` up to
rounding: `200 - n < 2 * sum ≤ 200 + n` for `n` columns. -/
theorem claim_C4_colspec_percentages (ws : List ℕ) (hne : ws ≠ [])
    (hpos : ∀ x ∈ ws, 0 < x) :
    (∀ cw ∈ ws, colPercent cw ws.sum =
        ((200 * cw + ws.sum) / (2 * ws.sum) : ℕ)) ∧
    200 - (ws.length : ℤ) < 2 * (write_colspecs ws).sum ∧
    2 * (write_colspecs ws).sum ≤ 200 + (ws.length : ℤ) := by
  have hW : 0 < ws.sum := by
    obtain ⟨a, ws', rfl⟩ := List.exists_cons_of_ne_nil hne
    have := hpos a (List.mem_cons_self a ws')
    simp only [List.sum_cons]
    omega
  have hWQ : (ws.sum : ℚ) ≠ 0 := Nat.cast_ne_zero.mpr hW.ne'
  have hub := colsum_upper ws.sum ws
  have hlb := colsum_lower ws.sum ws hne
  rw [qsum_eq ws.sum hWQ ws rfl] at hub hlb
  refine ⟨fun cw _ => colPercent_eq_div hW, ?_, ?_⟩
  · have hq : (200 : ℚ) - (ws.length : ℚ) <
        2 * (((ws.map (fun cw => colPercent cw ws.sum)).sum : ℤ) : ℚ) := by
      linarith
    rw [write_colspecs]
    exact_mod_cast hq
  · have hq : 2 * (((ws.map (fun cw => colPercent cw ws.sum)).sum : ℤ) : ℚ) ≤
        (200 : ℚ) + (ws.length : ℚ) := by
      linarith
    rw [write_colspecs]
    exact_mod_cast hq

theorem claim_C4_witness :
    ([1, 2, 3] : List ℕ) ≠ [] ∧ (∀ x ∈ ([1, 2, 3] : List ℕ), 0 < x) ∧
    write_colspecs [1, 2, 3] = [17, 33, 50] ∧
    (200 - (([1, 2, 3] : List ℕ).length : ℤ) < 2 * (write_colspecs [1, 2, 3]).sum ∧
      2 * (write_colspecs [1, 2, 3]).sum ≤ 200 + (([1, 2, 3] : List ℕ).length : ℤ)) :=
  ⟨by decide, by decide,
   by
     have h6 : 0 < ([1, 2, 3] : List ℕ).sum := by decide
     rw [write_colspecs]
     simp only [List.map_cons, List.map_nil]
     rw [colPercent_eq_div h6, colPercent_eq_div h6, colPercent_eq_div h6]
     decide,
   (claim_C4_colspec_percentages [1, 2, 3] (by decide) (by decide)).2⟩

/-! ## Claim C3: table-cell span attributes -/

/-- Claim C3: for a table cell, `rowspan` is emitted iff the extra-rows
count is positive (the parser stores `morerows` only when nonzero, hence
the two ≠ some 0 hypotheses), `colspan` likewise, the emitted value is
always extra + 1, and the row's column cursor advances by 1 plus the
extra-cols count. -/
theorem claim_C3_entry_spans (inThead : Bool) (stubs : List (Option Bool))
    (column : ℕ) (a : Attrs)
    (hr : a.morerows ≠ some 0) (hc : a.morecols ≠ some 0) :
    ((visit_entry_core inThead stubs column a).rowspan.isSome ↔
        0 < a.morerows.getD 0) ∧
    (∀ k, a.morerows = some k →
        (visit_entry_core inThead stubs column a).rowspan = some (k + 1)) ∧
    ((visit_entry_core inThead stubs column a).colspan.isSome ↔
        0 < a.morecols.getD 0) ∧
    (∀ k, a.morecols = some k →
        (visit_entry_core inThead stubs column a).colspan = some (k + 1)) ∧
    (visit_entry_core inThead stubs column a).column =
        column + 1 + a.morecols.getD 0 := by
  cases hmr : a.morerows with
  | none =>
      cases hmc : a.morecols with
      | none => simp [visit_entry_core, hmr, hmc]
      | some m =>
          rw [hmc] at hc
          have hm : 0 < m := Nat.pos_of_ne_zero (by simpa using hc)
          simp [visit_entry_core, hmr, hmc, hm]
  | some r =>
      rw [hmr] at hr
      have hrp : 0 < r := Nat.pos_of_ne_zero (by simpa using hr)
      cases hmc : a.morecols with
      | none => simp [visit_entry_core, hmr, hmc, hrp]
      | some m =>
          rw [hmc] at hc
          have hm : 0 < m := Nat.pos_of_ne_zero (by simpa using hc)
          simp [visit_entry_core, hmr, hmc, hrp, hm]

theorem claim_C3_entry_spans_witness :
    (({ morerows := some 2, morecols := some 1 } : Attrs).morerows ≠ some 0) ∧
    (({ morerows := some 2, morecols := some 1 } : Attrs).morecols ≠ some 0) ∧
    (visit_entry_core false [some true] 0
        { morerows := some 2, morecols := some 1 }).rowspan = some 3 ∧
    (visit_entry_core false [some true] 0
        { morerows := some 2, morecols := some 1 }).column = 0 + 1 + 1 := by
  refine ⟨by decide, by decide, ?_, ?_⟩
  · exact (claim_C3_entry_spans false [some true] 0
      { morerows := some 2, morecols := some 1 } (by decide) (by decide)).2.1 2 rfl
  · exact (claim_C3_entry_spans false [some true] 0
      { morerows := some 2, morecols := some 1 } (by decide) (by decide)).2.2.2.2

/-! ## Claim C6: unrecognized math-output mode -/

/-- Claim C6: a math node under an unrecognized math-output mode falls
back to `latex`, emits exactly one report, and does not abort the
traversal: `visit_math` signals `SkipNode` (normal skip), so a following
sibling is still entered. -/
theorem claim_C6_math_fallback (mo : String) (hmo : mo ∉ recognizedMathOutputs)
    (st : Settings) (c : Ctx) (a : Attrs) (cs : List Node) (s : S)
    (hs : s.mathOutput = mo) :
    mathOutputFallback mo = ("latex", true) ∧
    (dispatch_visit st c (.node .math a cs) s).mathOutput = "latex" ∧
    (dispatch_visit st c (.node .math a cs) s).reports = s.reports + 1 ∧
    skipsNode .math = true ∧
    (∀ rest, eventsOfChildren (Node.node .math a cs :: rest) =
        Event.enter .math :: eventsOfChildren rest) := by
  have hfb : mathOutputFallback mo = ("latex", true) := by
    rw [mathOutputFallback, if_pos hmo]
  refine ⟨hfb, ?_, ?_, rfl, ?_⟩
  · simp only [dispatch_visit, hs, hfb]
    split <;> split <;> rfl
  · simp only [dispatch_visit, hs, hfb]
    split <;> split <;> rfl
  · intro rest
    simp [eventsOfChildren, eventsOf, skipsNode]

theorem claim_C6_math_fallback_witness :
    ("svg" ∉ recognizedMathOutputs) ∧
    (dispatch_visit {} {} (.node .math {} []) { mathOutput := "svg" }).mathOutput =
      "latex" ∧
    (dispatch_visit {} {} (.node .math {} []) { mathOutput := "svg" }).reports =
      ({ mathOutput := "svg" } : S).reports + 1 :=
  ⟨by decide,
   (claim_C6_math_fallback "svg" (by decide) {} {} {} [] { mathOutput := "svg" } rfl).2.1,
   (claim_C6_math_fallback "svg" (by decide) {} {} {} [] { mathOutput := "svg" } rfl).2.2.1⟩

/-! ## Claim C10: the mail-obfuscation flag -/

/-- Claim C10: entering a reference sets `in_mailto` only when email
cloaking is enabled and the target starts with `mailto:` (otherwise the
prior value is kept), the reference exit handler unconditionally clears
it, and a full `walkabout` of any reference node always ends with the
flag cleared. -/
theorem claim_C10_in_mailto (st : Settings) (c : Ctx) (a : Attrs)
    (cs : List Node) (s : S) :
    ((dispatch_visit st c (.node .reference a cs) s).inMailto =
      (s.inMailto || (st.cloakEmailAddresses &&
        (match a.refuri with
         | some u => strStartsWith u "mailto:"
         | none => false)))) ∧
    (dispatch_departure st c (.node .reference a cs) s).inMailto = false ∧
    (walkabout st c s (.node .reference a cs)).inMailto = false := by
  refine ⟨?_, ?_, ?_⟩
  · simp only [dispatch_visit]
    repeat' split
    all_goals simp_all
  · simp only [dispatch_departure]
  · rw [walkabout]
    simp only [skipsNode, dispatch_departure]
    repeat' split
    all_goals first | rfl | simp_all

/-! ## Claim C5: is_compactable and the contents topic -/

/-- Claim C5 counterexample: a bullet list carrying the explicit `open`
class inside the table-of-contents topic is NOT compactable - the `open`
check precedes the contents-topic check - refuting "returns true for
every node tagged as the table-of-contents topic". -/
theorem claim_C5_counterexample :
    is_compactable {} ["contents"]
      (Node.node .bulletList { classes := ["open"] } []) = false := by decide

/-- Claim C5 (amended): provided the node carries no explicit
compact/open class tag and its category's compacting is enabled, a node
examined while the enclosing topic's classes are `['contents']` is always
compactable regardless of the classifier's traversal result, and for any
other topic-class state the result equals the classifier's verdict. -/
theorem claim_C5_amended (st : Settings) (tc : List String) (n : Node)
    (hcompact : "compact" ∉ n.attrs.classes) (hopen : "open" ∉ n.attrs.classes)
    (hfl : (n.kind = Kind.fieldList ∨ n.kind = Kind.definitionList) →
      st.compactFieldLists = true)
    (hbl : (n.kind = Kind.enumeratedList ∨ n.kind = Kind.bulletList) →
      st.compactLists = true) :
    (tc = ["contents"] → is_compactable st tc n = true) ∧
    (tc ≠ ["contents"] → is_compactable st tc n = simpleListCheck n) := by
  have h3 : ((n.kind == Kind.fieldList || n.kind == Kind.definitionList) &&
      ! st.compactFieldLists) = false := by
    by_cases h : n.kind = Kind.fieldList ∨ n.kind = Kind.definitionList
    · simp [hfl h]
    · push_neg at h
      simp [h.1, h.2]
  have h4 : ((n.kind == Kind.enumeratedList || n.kind == Kind.bulletList) &&
      ! st.compactLists) = false := by
    by_cases h : n.kind = Kind.enumeratedList ∨ n.kind = Kind.bulletList
    · simp [hbl h]
    · push_neg at h
      simp [h.1, h.2]
  rw [is_compactable, if_neg hcompact, if_neg hopen]
  constructor
  · intro htc
    subst htc
    simp [h3, h4]
  · intro htc
    simp [h3, h4, htc]

theorem claim_C5_amended_witness :
    ("compact" ∉ exampleBusyList.attrs.classes) ∧
    ("open" ∉ exampleBusyList.attrs.classes) ∧
    simpleListCheck exampleBusyList = false ∧
    is_compactable {} ["contents"] exampleBusyList = true ∧
    is_compactable {} [] exampleBusyList = simpleListCheck exampleBusyList :=
  ⟨by decide, by decide, by decide,
   (claim_C5_amended {} ["contents"] exampleBusyList (by decide) (by decide)
      (by intro h; rcases h with h | h <;> simp [exampleBusyList, Node.kind] at h)
      (by intro h; rfl)).1 rfl,
   (claim_C5_amended {} [] exampleBusyList (by decide) (by decide)
      (by intro h; rcases h with h | h <;> simp [exampleBusyList, Node.kind] at h)
      (by intro h; rfl)).2 (by decide)⟩

/-! ## Claim C2: visit/exit counts and SkipNode -/

theorem countEnter_cons (k : Kind) (e : Event) (es : List Event) :
    countEnter k (e :: es) =
      (if e = Event.enter k then 1 else 0) + countEnter k es := by
  by_cases h : e = Event.enter k <;> (simp [countEnter, List.filter_cons, h]; try omega)

theorem countEnter_append (k : Kind) (es fs : List Event) :
    countEnter k (es ++ fs) = countEnter k es + countEnter k fs := by
  simp [countEnter, List.filter_append]

theorem countLeave_cons (k : Kind) (e : Event) (es : List Event) :
    countLeave k (e :: es) =
      (if e = Event.leave k then 1 else 0) + countLeave k es := by
  by_cases h : e = Event.leave k <;> (simp [countLeave, List.filter_cons, h]; try omega)

theorem countLeave_append (k : Kind) (es fs : List Event) :
    countLeave k (es ++ fs) = countLeave k es + countLeave k fs := by
  simp [countLeave, List.filter_append]

mutual

theorem counts_eventsOf (k : Kind) : (n : Node) →
    countEnter k (eventsOf n) = reachedCount k n ∧
    countLeave k (eventsOf n) = (if skipsNode k then 0 else reachedCount k n)
  | .node k0 a cs => by
      rw [eventsOf, reachedCount]
      cases hsk : skipsNode k0
      · simp only [hsk, Bool.false_eq_true, if_false]
        obtain ⟨ihe, ihl⟩ := counts_eventsOfChildren k cs
        rw [countEnter_cons, countEnter_append, countLeave_cons, countLeave_append,
            ihe, ihl]
        constructor
        · by_cases hk : k0 = k <;> simp [hk, countEnter]
        · by_cases hk : k0 = k
          · subst hk
            simp [hsk, countLeave]
            omega
          · by_cases hsk2 : skipsNode k
            · simp [hsk2, hk, countLeave, Ne.symm hk]
            · simp [hsk2, hk, countLeave, Ne.symm hk]
      · simp only [hsk, if_true]
        constructor
        · rw [countEnter_cons]
          by_cases hk : k0 = k <;> simp [hk, countEnter]
        · rw [countLeave_cons]
          by_cases hk : k0 = k
          · subst hk
            simp [hsk, countLeave]
          · by_cases hsk2 : skipsNode k <;> simp [hsk2, hk, countLeave]

theorem counts_eventsOfChildren (k : Kind) : (cs : List Node) →
    countEnter k (eventsOfChildren cs) = reachedCountChildren k cs ∧
    countLeave k (eventsOfChildren cs) =
      (if skipsNode k then 0 else reachedCountChildren k cs)
  | [] => by simp [eventsOfChildren, reachedCountChildren, countEnter, countLeave]
  | c :: cs => by
      rw [eventsOfChildren, reachedCountChildren]
      obtain ⟨ihe, ihl⟩ := counts_eventsOf k c
      obtain ⟨ihe2, ihl2⟩ := counts_eventsOfChildren k cs
      rw [countEnter_append, countLeave_append, ihe, ihl, ihe2, ihl2]
      constructor
      · rfl
      · by_cases hsk : skipsNode k <;> simp [hsk]

end

/-- Claim C2 counterexample: in `exampleMathDoc` the math node is entered
exactly once but never exited (its `depart` is skipped together with the
descent), refuting "still receives its own exit step"; its text child is
likewise never entered. -/
theorem claim_C2_counterexample :
    countEnter Kind.math (eventsOf exampleMathDoc) = 1 ∧
    countLeave Kind.math (eventsOf exampleMathDoc) = 0 ∧
    countEnter Kind.text (eventsOf exampleMathDoc) = 1 := by decide

/-- Claim C2 (amended): in any traversal, enter events of a kind count
exactly the reached nodes of that kind (each reached node is entered
exactly once); nodes of a `SkipNode` kind (math, comment) produce no exit
event and no events for their children; nodes of every other kind are
exited exactly once per reach. -/
theorem claim_C2_amended (n : Node) (k : Kind) :
    countEnter k (eventsOf n) = reachedCount k n ∧
    countLeave k (eventsOf n) = (if skipsNode k then 0 else reachedCount k n) ∧
    (∀ a cs, skipsNode k = true →
      eventsOf (Node.node k a cs) = [Event.enter k]) := by
  refine ⟨(counts_eventsOf k n).1, (counts_eventsOf k n).2, ?_⟩
  intro a cs hsk
  rw [eventsOf, hsk]
  rfl

theorem claim_C2_amended_witness :
    countEnter Kind.paragraph (eventsOf exampleMathDoc) =
      reachedCount Kind.paragraph exampleMathDoc ∧
    countLeave Kind.math (eventsOf exampleMathDoc) =
      (if skipsNode Kind.math then 0 else reachedCount Kind.math exampleMathDoc) ∧
    skipsNode Kind.math = true ∧
    eventsOf (Node.node Kind.math {} [Node.node Kind.text {} []]) =
      [Event.enter Kind.math] :=
  ⟨(claim_C2_amended exampleMathDoc Kind.paragraph).1,
   (claim_C2_amended exampleMathDoc Kind.math).2.1,
   by decide,
   (claim_C2_amended exampleMathDoc Kind.math).2.2 {} [Node.node Kind.text {} []]
     (by decide)⟩

/-! ## Claim C1: context-stack discipline -/

theorem popFrame_snd (l : List Frame) : (popFrame l).2 = l.tail := by
  cases l <;> rfl

theorem frame_tail_eq_drop_one (l : List Frame) : l.tail = l.drop 1 := by
  cases l <;> rfl

theorem wfNode_generic {k : Kind} (a : Attrs) (cs : List Node)
    (h1 : k ≠ .tgroup) (h2 : k ≠ .thead) (h3 : k ≠ .tbody) :
    wfNode (.node k a cs) = wfChildren cs := by
  cases k <;> simp_all [wfNode]

theorem kindPops_eq_kindPushes {k : Kind} (h : k ≠ .tgroup) :
    kindPops k = kindPushes k := by
  cases k <;> simp_all [kindPops, kindPushes]

theorem skipsNode_no_push {k : Kind} (h : skipsNode k = true) :
    kindPushes k = false := by
  cases k <;> simp_all [skipsNode, kindPushes]

set_option maxHeartbeats 1000000 in
/-- An enter handler other than `thead`/`tbody` pushes `kindPushes k`
frames and leaves the prior context stack untouched below them. -/
theorem dispatch_visit_context_drop (st : Settings) (c : Ctx) (k : Kind)
    (a : Attrs) (cs : List Node) (s : S) (hk : k ≠ .thead ∧ k ≠ .tbody) :
    ((dispatch_visit st c (.node k a cs) s).context.drop
      (if kindPushes k then 1 else 0)) = s.context := by
  cases k
  case thead => exact absurd rfl hk.1
  case tbody => exact absurd rfl hk.2
  all_goals (
    simp only [dispatch_visit]
    repeat' split
    all_goals (try rw [apply_ite S.context])
    all_goals first | rfl | simp_all [kindPushes])

set_option maxHeartbeats 1000000 in
/-- Every exit handler pops `kindPops k` frames from the context stack. -/
theorem dispatch_departure_context (st : Settings) (c : Ctx) (k : Kind)
    (a : Attrs) (cs : List Node) (s : S) :
    (dispatch_departure st c (.node k a cs) s).context =
      (if kindPops k then s.context.tail else s.context) := by
  cases k
  all_goals (
    simp only [dispatch_departure]
    repeat' split
    all_goals first | rfl | simp_all [popFrame_snd, kindPops])

/-- The `thead` enter step pops the tgroup's colgroup frame and pushes the
empty closer for `tbody` to pop. -/
theorem dispatch_visit_thead_context (st : Settings) (c : Ctx) (a : Attrs)
    (cs : List Node) (s : S) (f : Frame) (rest : List Frame)
    (hs : s.context = f :: rest) :
    (dispatch_visit st c (.node .thead a cs) s).context = Frame.str "" :: rest := by
  simp [dispatch_visit, popFrame, hs]

/-- The `tbody` enter step pops the top context frame. -/
theorem dispatch_visit_tbody_context (st : Settings) (c : Ctx) (a : Attrs)
    (cs : List Node) (s : S) (f : Frame) (rest : List Frame)
    (hs : s.context = f :: rest) :
    (dispatch_visit st c (.node .tbody a cs) s).context = rest := by
  simp [dispatch_visit, popFrame, hs]

set_option maxHeartbeats 1000000 in
mutual

theorem walkabout_context (st : Settings) (c : Ctx) (s : S) :
    (n : Node) → wfNode n = true → (walkabout st c s n).context = s.context
  | .node k a cs, h => by
      by_cases hth : k = Kind.thead
      · subst hth
        exact absurd h (by simp [wfNode])
      by_cases htb : k = Kind.tbody
      · subst htb
        exact absurd h (by simp [wfNode])
      by_cases htg : k = Kind.tgroup
      · subst htg
        have hcs : wfTgroup cs = true := by simpa [wfNode] using h
        rw [walkabout]
        simp only [skipsNode, Bool.false_eq_true, if_false]
        rw [dispatch_departure_context]
        simp only [kindPops, Bool.false_eq_true, if_false]
        refine walkTgroup_context st _ cs hcs _ (Frame.str "</colgroup>\n") s.context ?_
        simp [dispatch_visit]
      · rw [wfNode_generic a cs htg hth htb] at h
        rw [walkabout]
        have hdrop := dispatch_visit_context_drop st c k a cs s ⟨hth, htb⟩
        cases hsk : skipsNode k
        · simp only [Bool.false_eq_true, if_false]
          rw [dispatch_departure_context, walkChildren_context st _ _ cs h,
              kindPops_eq_kindPushes htg]
          cases hp : kindPushes k
          · rw [hp] at hdrop
            simpa using hdrop
          · rw [hp] at hdrop
            simp only [if_true]
            rw [frame_tail_eq_drop_one]
            simpa using hdrop
        · simp only [if_true]
          rw [skipsNode_no_push hsk] at hdrop
          simpa using hdrop
termination_by n => sizeOf n

theorem walkChildren_context (st : Settings) (c : Ctx) (s : S) :
    (l : List Node) → wfChildren l = true → (walkChildren st c s l).context = s.context
  | [], _ => rfl
  | n :: rest, h => by
      have h12 : wfNode n = true ∧ wfChildren rest = true := by
        simpa [wfChildren, Bool.and_eq_true] using h
      rw [walkChildren, walkChildren_context st c _ rest h12.2,
          walkabout_context st c s n h12.1]
termination_by l => sizeOf l

theorem walkTgroup_context (st : Settings) (c : Ctx) :
    (l : List Node) → wfTgroup l = true → ∀ (s : S) (f : Frame) (rest : List Frame),
      s.context = f :: rest → (walkChildren st c s l).context = rest
  | [], h, _, _, _, _ => Bool.noConfusion (show false = true from h)
  | [.node k0 a0 cs0], h, s, f, rest, hs => by
      rw [wfTgroup] at h
      by_cases hc : k0 = Kind.colspec
      · subst hc
        rw [if_pos rfl, Bool.and_eq_true] at h
        exact Bool.noConfusion (show false = true from h.2)
      · rw [if_neg hc] at h
        by_cases hh : k0 = Kind.thead
        · subst hh
          rw [if_pos rfl, Bool.and_eq_true] at h
          exact Bool.noConfusion (show false = true from h.2)
        · rw [if_neg hh] at h
          by_cases hb : k0 = Kind.tbody
          · subst hb
            rw [if_pos rfl, Bool.and_eq_true] at h
            rw [walkChildren, walkChildren, walkabout]
            simp only [skipsNode, Bool.false_eq_true, if_false]
            rw [dispatch_departure_context]
            simp only [kindPops, Bool.false_eq_true, if_false]
            rw [walkChildren_context st _ _ cs0 h.2]
            exact dispatch_visit_tbody_context st c a0 cs0 s f rest hs
          · rw [if_neg hb] at h
            exact Bool.noConfusion (show false = true from h)
  | .node k0 a0 cs0 :: .node k1 a1 cs1 :: rest2, h, s, f, rest, hs => by
      rw [wfTgroup] at h
      by_cases hc : k0 = Kind.colspec
      · subst hc
        rw [if_pos rfl, Bool.and_eq_true] at h
        have hcs0 : cs0 = [] := by simpa [List.isEmpty_iff] using h.1
        subst hcs0
        have hcol : (walkabout st c s (.node .colspec a0 [])).context = s.context := by
          rw [walkabout]
          simp only [skipsNode, Bool.false_eq_true, if_false]
          rw [walkChildren, dispatch_departure_context]
          simp only [kindPops, Bool.false_eq_true, if_false]
          simp [dispatch_visit]
        rw [walkChildren]
        exact walkTgroup_context st c (.node k1 a1 cs1 :: rest2) h.2 _ f rest
          (by rw [hcol, hs])
      · rw [if_neg hc] at h
        by_cases hh : k0 = Kind.thead
        · subst hh
          rw [if_pos rfl, Bool.and_eq_true] at h
          obtain ⟨hr1, htail⟩ := h
          cases rest2 with
          | cons m2 rest3 => exact Bool.noConfusion (show false = true from htail)
          | nil =>
            replace htail : ((k1 == Kind.tbody) && wfChildren cs1) = true := htail
            rw [Bool.and_eq_true] at htail
            have hk1 : k1 = Kind.tbody := by simpa using htail.1
            subst hk1
            have h1 : (walkabout st c s (.node .thead a0 cs0)).context =
                Frame.str "" :: rest := by
              rw [walkabout]
              simp only [skipsNode, Bool.false_eq_true, if_false]
              rw [dispatch_departure_context]
              simp only [kindPops, Bool.false_eq_true, if_false]
              rw [walkChildren_context st _ _ cs0 hr1]
              exact dispatch_visit_thead_context st c a0 cs0 s f rest hs
            have h3 : (walkabout st c (walkabout st c s (.node .thead a0 cs0))
                (.node .tbody a1 cs1)).context = rest := by
              rw [walkabout]
              simp only [skipsNode, Bool.false_eq_true, if_false]
              rw [dispatch_departure_context]
              simp only [kindPops, Bool.false_eq_true, if_false]
              rw [walkChildren_context st _ _ cs1 htail.2]
              exact dispatch_visit_tbody_context st c a1 cs1 _ (Frame.str "") rest h1
            rw [walkChildren, walkChildren, walkChildren]
            exact h3
        · rw [if_neg hh] at h
          by_cases hb : k0 = Kind.tbody
          · subst hb
            rw [if_pos rfl, Bool.and_eq_true] at h
            exact Bool.noConfusion (show false = true from h.1)
          · rw [if_neg hb] at h
            exact Bool.noConfusion (show false = true from h)
termination_by l => sizeOf l
end
/-- Claim C1 counterexample: in the traversal of `exampleTableDoc`, the
context-stack depth just before the `tbody` node's enter step is 1 (the
colgroup frame pushed by the tgroup's enter), the depth drops to 0 already
during the tbody's ENTER step, and the depth after the tbody's exit is 0 -
so the depth after this node's exit does not equal the depth before its
enter, and the tgroup's push is popped by a child's enter rather than the
tgroup's own exit, refuting the per-node push/pop balance as stated. -/
theorem claim_C1_counterexample :
    examplePreTbody.context.length = 1 ∧
    (dispatch_visit {} exampleCtxTgroup exampleTbody examplePreTbody).context.length = 0 ∧
    (walkabout {} exampleCtxTgroup examplePreTbody exampleTbody).context.length = 0 := by
  decide

/-- Claim C1 (amended): for well-formed trees (tgroups containing their
mandatory tbody), the context stack is balanced at subtree granularity:
the stack after any node's full enter-children-exit traversal equals the
stack before its enter (each push is matched by exactly one pop, in LIFO
order, at or before the end of the pushing node's subtree - for `tgroup`
the matching pop happens during the enter of its thead/tbody child); in
particular a traversal of any well-formed document from the initial state
ends with an empty context stack, which is exactly the
`assert not self.context` check of `depart_document`. -/
theorem claim_C1_amended (st : Settings) :
    (∀ (c : Ctx) (s : S) (n : Node), wfNode n = true →
        (walkabout st c s n).context = s.context) ∧
    (∀ doc : Node, wfNode doc = true →
        (walkabout st {} (initS st) doc).context = []) := by
  refine ⟨fun c s n h => walkabout_context st c s n h, fun doc h => ?_⟩
  rw [walkabout_context st {} (initS st) doc h]
  rfl

theorem claim_C1_amended_witness :
    wfNode exampleTableDoc = true ∧
    (walkabout {} {} (initS {}) exampleTableDoc).context = [] ∧
    (walkabout {} exampleCtxTgroup { context := [Frame.ofs 7] } exampleTable).context =
      [Frame.ofs 7] :=
  ⟨by decide, (claim_C1_amended {}).2 exampleTableDoc (by decide),
   (claim_C1_amended {}).1 exampleCtxTgroup { context := [Frame.ofs 7] } exampleTable
     (by decide)⟩

/-! ## Claim C7: starttag identifier handling -/

theorem dictFind_insert_self (k : String) (v : AttVal) (d : List (String × AttVal)) :
    dictFind k (dictInsert k v d) = some v := by
  induction d with
  | nil => simp [dictInsert, dictFind]
  | cons p rest ih =>
      by_cases h : p.1 = k <;> simp [dictInsert, dictFind, h, ih]

theorem dictFind_insert_ne (k k' : String) (hk : k' ≠ k) (v : AttVal)
    (d : List (String × AttVal)) :
    dictFind k (dictInsert k' v d) = dictFind k d := by
  induction d with
  | nil => simp [dictInsert, dictFind, hk]
  | cons p rest ih =>
      by_cases h : p.1 = k' <;> by_cases h2 : p.1 = k <;>
        simp_all [dictInsert, dictFind]

theorem dictFind_erase_ne (k k' : String) (hk : k' ≠ k)
    (d : List (String × AttVal)) :
    dictFind k (dictErase k' d) = dictFind k d := by
  induction d with
  | nil => simp [dictErase, dictFind]
  | cons p rest ih =>
      by_cases h : p.1 = k' <;> by_cases h2 : p.1 = k <;>
        simp_all [dictErase, dictFind]

theorem dictFind_foldl_insert_isSome (key : String) :
    ∀ (l : List (String × AttVal)) (d : List (String × AttVal)),
      ((∃ p ∈ l, lowerStr p.1 = key) ∨ (dictFind key d).isSome = true) →
      (dictFind key (l.foldl (fun d p => dictInsert (lowerStr p.1) p.2 d) d)).isSome =
        true := by
  intro l
  induction l with
  | nil =>
      intro d h
      rcases h with h | h
      · simp at h
      · simpa using h
  | cons p rest ih =>
      intro d h
      rw [List.foldl_cons]
      refine ih (dictInsert (lowerStr p.1) p.2 d) ?_
      by_cases hp : lowerStr p.1 = key
      · right
        rw [← hp, dictFind_insert_self]
        rfl
      · rcases h with h | h
        · rcases h with ⟨q, hq, hqk⟩
          rcases List.mem_cons.mp hq with rfl | hq2
          · exact absurd hqk hp
          · exact Or.inl ⟨q, hq2, hqk⟩
        · right
          rw [dictFind_insert_ne key (lowerStr p.1) hp]
          exact h

theorem dictFind_foldl_insert_none (key : String) :
    ∀ (l : List (String × AttVal)) (d : List (String × AttVal)),
      (∀ p ∈ l, lowerStr p.1 ≠ key) → dictFind key d = none →
      dictFind key (l.foldl (fun d p => dictInsert (lowerStr p.1) p.2 d) d) = none := by
  intro l
  induction l with
  | nil =>
      intro d _ hd
      simpa using hd
  | cons p rest ih =>
      intro d h hd
      rw [List.foldl_cons]
      refine ih (dictInsert (lowerStr p.1) p.2 d) (fun q hq => h q (List.mem_cons_of_mem p hq)) ?_
      rw [dictFind_insert_ne key (lowerStr p.1) (h p (List.mem_cons_self p rest)), hd]

theorem starttagAtts_find_isSome (node : Attrs) (attributes : List (String × AttVal))
    (key : String) (hkl : key ≠ "lang") (hkc : key ≠ "class")
    (h : ∃ p ∈ attributes, lowerStr p.1 = key) :
    (dictFind key (starttagAtts node attributes)).isSome = true := by
  rw [starttagAtts]
  have h0 := dictFind_foldl_insert_isSome key attributes [] (Or.inl h)
  repeat' split
  all_goals (
    (try rw [dictFind_insert_ne key "class" (Ne.symm hkc)])
    (try rw [dictFind_insert_ne key "lang" (Ne.symm hkl)])
    rw [dictFind_erase_ne key "class" (Ne.symm hkc)]
    exact h0)

theorem starttagAtts_find_none (node : Attrs) (attributes : List (String × AttVal))
    (key : String) (hkl : key ≠ "lang") (hkc : key ≠ "class")
    (h : ∀ p ∈ attributes, lowerStr p.1 ≠ key) :
    dictFind key (starttagAtts node attributes) = none := by
  rw [starttagAtts]
  have h0 := dictFind_foldl_insert_none key attributes [] h rfl
  repeat' split
  all_goals (
    (try rw [dictFind_insert_ne key "class" (Ne.symm hkc)])
    (try rw [dictFind_insert_ne key "lang" (Ne.symm hkl)])
    rw [dictFind_erase_ne key "class" (Ne.symm hkc)]
    exact h0)

/-- Claim C7: a `starttag` call whose attribute map supplies an explicit
`id` (any capitalization) fails with the internal-consistency error; with
no explicit `id`/`ids` attribute and node identifiers `i :: rest`, the
call succeeds, exactly `i` becomes the tag's `id` attribute, and every
identifier in `rest` becomes a zero-width span anchor placed before the
tag when `empty` is true and appended after the suffix (as the tag's
first emitted content) otherwise. -/
theorem claim_C7_starttag_ids (cloak inMailto : Bool) (node : Attrs)
    (tagname sfx : String) (empty : Bool) (attributes : List (String × AttVal)) :
    ((∃ p ∈ attributes, lowerStr p.1 = "id") →
      starttag cloak inMailto node tagname sfx empty attributes =
        .error "duplicate id attribute") ∧
    (∀ i rest, node.ids = i :: rest →
      (∀ p ∈ attributes, lowerStr p.1 ≠ "id" ∧ lowerStr p.1 ≠ "ids") →
      ∃ d : List (String × AttVal),
        dictFind "id" d = some (.str i) ∧
        starttag cloak inMailto node tagname sfx empty attributes =
          .ok (String.join (if empty then rest.map anchorSpan else []) ++
            "<" ++ " ".intercalate
              (lowerStr tagname :: (sortAtts d).map (renderAtt cloak inMailto)) ++
            ">" ++
            (if empty then sfx else sfx ++ String.join (rest.map anchorSpan)))) := by
  constructor
  · intro hex
    have hfind := starttagAtts_find_isSome node attributes "id"
      (by decide) (by decide) hex
    rw [starttag, if_pos hfind]
  · intro i rest hids hnone
    have hfind : dictFind "id" (starttagAtts node attributes) = none :=
      starttagAtts_find_none node attributes "id" (by decide) (by decide)
        (fun p hp => (hnone p hp).1)
    have hfind2 : dictFind "ids" (starttagAtts node attributes) = none :=
      starttagAtts_find_none node attributes "ids" (by decide) (by decide)
        (fun p hp => (hnone p hp).2)
    have hidseq : starttagIds node (starttagAtts node attributes) = i :: rest := by
      rw [starttagIds, hfind2, hids]
      simp
    refine ⟨dictInsert "id" (.str i)
      (dictErase "ids" (starttagAtts node attributes)),
      dictFind_insert_self "id" (.str i) _, ?_⟩
    rw [starttag, if_neg (by rw [hfind]; simp), hidseq]
    rfl

theorem claim_C7_starttag_ids_witness :
    (∃ p ∈ [("ID", AttVal.str "x")], lowerStr p.1 = "id") ∧
    starttag false false { ids := ["a", "b", "c"] } "p" "\n" false
        [("ID", AttVal.str "x")] = .error "duplicate id attribute" ∧
    (∃ d : List (String × AttVal), dictFind "id" d = some (.str "a") ∧
      starttag false false { ids := ["a", "b", "c"] } "p" "\n" false [] =
        .ok (String.join (if false then (["b", "c"].map anchorSpan) else []) ++
          "<" ++ " ".intercalate
            (lowerStr "p" :: (sortAtts d).map (renderAtt false false)) ++ ">" ++
          (if false then "\n" else "\n" ++ String.join (["b", "c"].map anchorSpan)))) ∧
    starttag false false { ids := ["a", "b", "c"] } "p" "\n" false [] =
      .ok ("<p id=\"a\">" ++ "\n" ++
        "<span id=\"b\"></span>" ++ "<span id=\"c\"></span>") ∧
    starttag false false { ids := ["a", "b"] } "img" "" true [] =
      .ok ("<span id=\"b\"></span>" ++ "<img id=\"a\">") := by
  refine ⟨⟨("ID", AttVal.str "x"), by decide, by decide⟩, ?_, ?_, by rfl, by rfl⟩
  · exact (claim_C7_starttag_ids false false { ids := ["a", "b", "c"] } "p" "\n"
      false [("ID", AttVal.str "x")]).1 ⟨("ID", AttVal.str "x"), by decide, by decide⟩
  · exact (claim_C7_starttag_ids false false
      { ids := ["a", "b", "c"] } "p" "\n" false []).2 "a" ["b", "c"] rfl
      (by intro p hp; simp at hp)

/-! ## Claim C8: footnote/citation label back-links -/

/-- Claim C8: with footnote backlinks enabled, a label with exactly one
back-reference gets an inline `fn-backref` anchor wrapping the label (and
its closing tag in the exit step); a label with n > 1 back-references
instead appends one parenthesized span containing exactly n comma-joined
anchors, the i-th linking `#backrefs[i]` with 1-based link text `i+1`, in
back-reference order; a label with zero back-references produces no
back-link markup. -/
theorem claim_C8_label_backlinks (st : Settings) (hb : st.footnoteBacklinks = true)
    (hfr : st.footnoteReferences = "brackets") (backrefs : List String) :
    (∀ r, backrefs = [r] →
      visit_label st false false true { backrefs := backrefs } {} =
        .ok ["<dt class=\"label\">", "<span class=\"brackets\">",
          "<a class=\"fn-backref\" href=\"#" ++ r ++ "\">"] ∧
      depart_label st backrefs = ["</span>", "</a>", "</dt>\n<dd>"]) ∧
    (2 ≤ backrefs.length →
      visit_label st false false true { backrefs := backrefs } {} =
        .ok ["<dt class=\"label\">", "<span class=\"brackets\">"] ∧
      depart_label st backrefs =
        ["</span>",
          "<span class=\"fn-backref\">(" ++
            ",".intercalate (backlinkAnchors backrefs) ++ ")</span>",
          "</dt>\n<dd>"] ∧
      (backlinkAnchors backrefs).length = backrefs.length ∧
      (∀ (i : ℕ) (hi : i < backrefs.length),
        (backlinkAnchors backrefs).getD i "" =
          "<a href=\"#" ++ backrefs[i] ++ "\">" ++ toString (i + 1) ++ "</a>")) ∧
    (backrefs = [] →
      visit_label st false false true { backrefs := backrefs } {} =
        .ok ["<dt class=\"label\">", "<span class=\"brackets\">"] ∧
      depart_label st backrefs = ["</span>", "</dt>\n<dd>"]) := by
  refine ⟨?_, ?_, ?_⟩
  · rintro r rfl
    constructor
    · simp only [visit_label, hfr, hb]
      rfl
    · simp only [depart_label, hb]
      rfl
  · intro h2
    have h1 : (backrefs.length == 1) = false := by
      simp only [beq_eq_false_iff_ne, ne_eq]
      omega
    have hgt : backrefs.length > 1 := by omega
    refine ⟨?_, ?_, ?_, ?_⟩
    · simp only [visit_label, hfr, hb, h1, Bool.and_false]
      rfl
    · simp only [depart_label, hb, h1, if_true, Bool.false_eq_true, if_false, hgt]
      simp
    · simp [backlinkAnchors, List.enum_length]
    · intro i hi
      have hlen : i < (backlinkAnchors backrefs).length := by
        simpa [backlinkAnchors, List.enum_length] using hi
      rw [List.getD_eq_getElem?_getD, List.getElem?_eq_getElem hlen]
      simp only [backlinkAnchors, List.getElem_map, List.enum, List.getElem_enumFrom]
      simp
  · rintro rfl
    constructor
    · simp only [visit_label, hfr, hb]
      rfl
    · simp only [depart_label, hb]
      rfl

theorem claim_C8_label_backlinks_witness :
    ({} : Settings).footnoteBacklinks = true ∧
    visit_label {} false false true { backrefs := ["a"] } {} =
      .ok ["<dt class=\"label\">", "<span class=\"brackets\">",
        "<a class=\"fn-backref\" href=\"#a\">"] ∧
    depart_label {} ["a", "b"] =
      ["</span>",
        "<span class=\"fn-backref\">(" ++
          ",".intercalate (backlinkAnchors ["a", "b"]) ++ ")</span>",
        "</dt>\n<dd>"] ∧
    ",".intercalate (backlinkAnchors ["a", "b"]) =
      "<a href=\"#a\">1</a>,<a href=\"#b\">2</a>" ∧
    depart_label {} [] = ["</span>", "</dt>\n<dd>"] :=
  ⟨rfl,
   ((claim_C8_label_backlinks {} rfl rfl ["a"]).1 "a" rfl).1,
   ((claim_C8_label_backlinks {} rfl rfl ["a", "b"]).2.1 (by decide)).2.1,
   by rfl,
   ((claim_C8_label_backlinks {} rfl rfl []).2.2 rfl).2⟩

end HtmlWriter
